import Mathlib

/-!
Shallow embedding of the agent-loop core of the GAME repository
(files game/core/agent.py, game/core/actions.py, game/core/templates.py).

Modelling conventions:
* Python/JSON values are modelled by the inductive type `Val`; Python dicts
  appearing as data (history entries, decoded JSON objects, kwargs) are
  association lists `List (String × Val)` with unique keys maintained by
  Python-dict insert-or-replace semantics.
* Python exceptions are modelled by `PyErr`; fallible code returns
  `Except PyErr α`.  A `try/except Exception` block becomes a `match` on the
  `Except` result.
* `async` functions are modelled as pure functions (the loop is strictly
  sequential; suspension points have no observable effect in this model).
* The external collaborators (Environment.get_state and
  LLMProvider.generate_response) are modelled as explicit oracle arguments;
  in `run_loop` they are indexed by the step number to capture statefulness.
* `asyncio.sleep(1)` and `print` are effect-free in this model.
-/

set_option maxRecDepth 40000

namespace GAME

/-- JSON-like runtime values (the subset of Python values the core passes
around).  Floating point numbers are carried symbolically as their lexeme
(`flt`); no arithmetic is performed on them anywhere in the modelled code. -/
inductive Val where
  | str (s : String)
  | num (n : Int)
  | flt (lexeme : String)
  | bool (b : Bool)
  | null
  | arr (elems : List Val)
  | obj (fields : List (String × Val))

/-- Python exceptions raised by the modelled code. -/
inductive PyErr where
  | keyError (key : String)
  | valueError (msg : String)
  | typeError (msg : String)
  | other (msg : String)
deriving DecidableEq

/-- Python `str(e)` for the exceptions above (`str` of a `KeyError` shows the
repr of the missing key, i.e. the key in quotes). -/
def PyErr.toStr : PyErr → String
  | .keyError k => "\x27" ++ k ++ "\x27"
  | .valueError m => m
  | .typeError m => m
  | .other m => m

/-- The opening-brace character (written via its code point). -/
def lbrace : Char := Char.ofNat 123

/-- The closing-brace character (written via its code point). -/
def rbrace : Char := Char.ofNat 125

mutual
/-- Model of `json.dumps` on `Val` (compact rendering; the `indent=2`
pretty-printing of the source is not modelled — no claim depends on the
rendered prompt text, only on whether prompt construction succeeds). -/
def dumps : Val → String
  | .str s => "\"" ++ s ++ "\""
  | .num n => toString n
  | .flt lx => lx
  | .bool b => if b then "true" else "false"
  | .null => "null"
  | .arr xs => "[" ++ dumpsList xs ++ "]"
  | .obj fs => lbrace.toString ++ dumpsFields fs ++ rbrace.toString

/-- Comma-joined rendering of array elements. -/
def dumpsList : List Val → String
  | [] => ""
  | [x] => dumps x
  | x :: xs => dumps x ++ ", " ++ dumpsList xs

/-- Comma-joined rendering of object fields. -/
def dumpsFields : List (String × Val) → String
  | [] => ""
  | [(k, v)] => "\"" ++ k ++ "\": " ++ dumps v
  | (k, v) :: fs => "\"" ++ k ++ "\": " ++ dumps v ++ ", " ++ dumpsFields fs
end

/-- Python `str()` of a `Val` (used in f-strings; containers are rendered via
their JSON form — a simplification, the claims only ever render strings). -/
def Val.pyStr : Val → String
  | .str s => s
  | .num n => toString n
  | .flt lx => lx
  | .bool b => if b then "True" else "False"
  | .null => "None"
  | .arr xs => "[" ++ dumpsList xs ++ "]"
  | .obj fs => lbrace.toString ++ dumpsFields fs ++ rbrace.toString

/-- Python dict lookup `d[k]`: the value, or `KeyError` when absent. -/
def dictGet (d : List (String × Val)) (k : String) : Except PyErr Val :=
  match d.lookup k with
  | some v => .ok v
  | none => .error (.keyError k)

/-- Python dict insert-or-replace `d[k] = v`: replaces in place when the key
is present (keeping its original position), appends otherwise. -/
def objInsert (d : List (String × Val)) (k : String) (v : Val) :
    List (String × Val) :=
  if d.any (fun p => p.1 == k) then
    d.map (fun p => if p.1 == k then (k, v) else p)
  else d ++ [(k, v)]

/-- Python `d.pop(k)` on a decoded JSON value: only a dict supports it; a
missing key raises `KeyError`.  Returns the popped value and the remaining
dict. -/
def dictPopReq (v : Val) (k : String) : Except PyErr (Val × List (String × Val)) :=
  match v with
  | .obj fields =>
    match fields.lookup k with
    | some x => .ok (x, fields.filter (fun p => p.1 != k))
    | none => .error (.keyError k)
  | _ => .error (.typeError "pop expects a dict")

/-- Python `d.pop(k, default)` on a dict: never raises on a dict. -/
def dictPopDef (fields : List (String × Val)) (k : String) (dflt : Val) :
    Val × List (String × Val) :=
  match fields.lookup k with
  | some x => (x, fields.filter (fun p => p.1 != k))
  | none => (dflt, fields)

/-- An entry of `ActionRegistry` (class `Action` in game/core/actions.py).
The handler `func` is `async` in the source; it is modelled as a pure
function from the keyword-argument dict to a result or a raised exception. -/
structure Action where
  func : List (String × Val) → Except PyErr Val
  description : String
  required_params : List (String × String)
  example_ : List (String × Val)

/-- One exported action description (the dict built by
`ActionRegistry.get_action_descriptions`); by construction it omits the
handler. -/
structure ActionDesc where
  description : String
  required_params : List (String × String)
  example_ : List (String × Val)

/-- The description record of an action (the dict comprehension body of
`get_action_descriptions`). -/
def describeAction (a : Action) : ActionDesc :=
  ⟨a.description, a.required_params, a.example_⟩

/-- Model of `ActionRegistry._actions`: a Python dict from name to `Action`,
modelled as an association list with unique keys. -/
abbrev ActionRegistry := List (String × Action)

/-- The fresh registry built by `ActionRegistry.__init__`. -/
def emptyRegistry : ActionRegistry := []

/-- Model of `ActionRegistry.register`: the Python dict assignment `_actions[name] = action`
(insert-or-replace; an existing key keeps its original position). -/
def ActionRegistry.register (reg : ActionRegistry) (name : String) (a : Action) :
    ActionRegistry :=
  if (List.any reg fun p => p.1 == name) then
    List.map (fun p => if p.1 == name then (name, a) else p) reg
  else reg ++ [(name, a)]

/-- Model of `ActionRegistry.get_action`, that is `_actions.get(name)`. -/
def ActionRegistry.get_action (reg : ActionRegistry) (name : String) :
    Option Action :=
  List.lookup name reg

/-- Registry lookup with a `Val` key, as it happens in `run_loop` where the
name popped from the decoded JSON may be any value: a Python dict with
string keys returns `None` for any non-string key. -/
def ActionRegistry.get_action_v (reg : ActionRegistry) (name : Val) :
    Option Action :=
  match name with
  | .str s => reg.get_action s
  | _ => none

/-- Model of `ActionRegistry.get_action_descriptions`: the exported snapshot used for
prompt construction. -/
def ActionRegistry.get_action_descriptions (reg : ActionRegistry) :
    List (String × ActionDesc) :=
  List.map (fun p => (p.1, describeAction p.2)) reg

/-- JSON encoding of the exported descriptions (what
`json.dumps(action_descriptions, ...)` serializes). -/
def descsToVal (ds : List (String × ActionDesc)) : Val :=
  .obj (ds.map fun p =>
    (p.1, .obj
      [("description", .str p.2.description),
       ("required_params", .obj (p.2.required_params.map fun q => (q.1, .str q.2))),
       ("example", .obj p.2.example_)]))

/-- Model of `ActionResult` (game/core/agent.py).  Its `data` defaults to Python `None`,
modelled by `Val.null`. -/
structure ActionResult where
  success : Bool
  message : String
  data : Val := .null

/-- The prompt-facing data of the Environment collaborator
(`get_state_descriptions()` serialized as JSON and
`get_world_description()`); `get_state` is passed separately as an oracle. -/
structure EnvModel where
  state_descriptions : Val
  world_description : String

/-- The `Agent` object state (game/core/agent.py).  The LLM provider and the
environment state fetch are modelled as oracle arguments of the operations
that use them, not as fields, so that their per-call behaviour can be
quantified over. -/
structure Agent where
  system_template : String
  user_template : String
  character_info : List (String × Val)
  agent_guidelines : List String
  action_registry : ActionRegistry
  action_history : List (List (String × Val))
  max_history : Nat
  env : EnvModel

/-- The history entry dict appended by `Agent.execute_action` — exactly the
keys `name`, `parameters`, `reasoning`, `result` (note: no `timestamp`). -/
def mkHistEntry (name : Val) (kwargs : List (String × Val)) (reasoning : Val)
    (result : Val) : List (String × Val) :=
  [("name", name), ("parameters", .obj kwargs),
   ("reasoning", reasoning), ("result", result)]

/-- Model of `Agent.execute_action`: look the name up, invoke the handler inside
`try/except`, on success append the entry and evict the oldest entry when the
length exceeds `max_history` (`self.action_history.pop(0)`), returning the
`ActionResult`; the updated agent is returned alongside. -/
def execute_action (ag : Agent) (action_name : Val) (reasoning : Val)
    (kwargs : List (String × Val)) : ActionResult × Agent :=
  match ag.action_registry.get_action_v action_name with
  | none =>
    (⟨false, "Action \x27" ++ action_name.pyStr ++ "\x27 not found", .null⟩, ag)
  | some action =>
    match action.func kwargs with
    | .error e => (⟨false, "Action failed: " ++ e.toStr, .null⟩, ag)
    | .ok result =>
      let hist := ag.action_history ++ [mkHistEntry action_name kwargs reasoning result]
      let hist := if ag.max_history < hist.length then hist.drop 1 else hist
      (⟨true, "Action executed successfully", result⟩,
       { ag with action_history := hist })

/-- Model of `Agent.register_action`: builds the `Action` and registers it. -/
def register_action (ag : Agent) (name : String)
    (func : List (String × Val) → Except PyErr Val) (description : String)
    (required_params : List (String × String)) (example_ : List (String × Val)) :
    Agent :=
  { ag with action_registry :=
      ag.action_registry.register name ⟨func, description, required_params, example_⟩ }

/-- Python slice `xs[-k:]` for a non-negative `k` (as used with
`max_history`): for `k = 0` the slice is `xs[0:]`, i.e. the whole list. -/
def sliceLastPy (xs : List α) (k : Nat) : List α :=
  if k = 0 then xs else xs.drop (xs.length - k)

/-- One rendered line of `Agent._format_action_history` — the f-string reads
the keys `name`, `timestamp`, `reasoning`, `result` of the entry dict, in
that order, raising `KeyError` at the first absent one. -/
def formatHistoryLine (e : List (String × Val)) : Except PyErr String := do
  let n ← dictGet e "name"
  let ts ← dictGet e "timestamp"
  let r ← dictGet e "reasoning"
  let res ← dictGet e "result"
  .ok ("- " ++ n.pyStr ++ " (" ++ ts.pyStr ++ "): " ++ r.pyStr
        ++ "\n  Result: " ++ res.pyStr)

/-- Model of `Agent._format_action_history`: the fixed sentence for an empty history,
otherwise the newline-joined lines over the slice
`action_history[-max_history:]`. -/
def format_action_history (ag : Agent) : Except PyErr String :=
  match ag.action_history with
  | [] => .ok "No previous actions taken."
  | _ => do
    let lines ← (sliceLastPy ag.action_history ag.max_history).mapM formatHistoryLine
    .ok (String.intercalate "\n" lines)

/-- Verbatim `DEFAULT_SYSTEM_TEMPLATE` from game/core/templates.py. -/
def DEFAULT_SYSTEM_TEMPLATE : String :=
  "You are an agent with the following characteristics:\n\x7bcharacter_info\x7d\n\nEnvironment Description:\n\x7bworld_description\x7d\n\nThe environment provides the following state information:\n\x7bstate_descriptions\x7d\n\nYou will also be provided with a history of actions you have previuosly taken and their outputs and outcomes.\n\nYou have access to these actions:\n\x7bavailable_actions\x7d\n\nFollow these guidelines:\n\x7bagent_guidelines\x7d\n\nWhen planning actions:\n1. First, analyze the current state and history\n2. Think through what needs to be accomplished considering the environment constraints\n3. Plan a sequence of actions to achieve your goal\n4. Explain your reasoning and strategy\n\nRespond in JSON format:\n\x7b\n    \"reasoning\": \"Detailed explanation of your thought process and overall strategy\",\n    \"plan\": [\n        \x7b\x7b\n            \"reasoning\": \"Specific reasoning for this step\",\n            \"action\": \"name_of_action\",\n            \"parameters\": \x7b\x7b\x7d\x7d\n        \x7d\x7d\n    ]\n\x7d\n\nExample response:\n\x7b\n    \"reasoning\": \"Given the Twitter platform constraints and current engagement metrics, \n                 we need to carefully time and structure our content for maximum impact.\",\n    \"plan\": [\n        \x7b\n            \"reasoning\": \"First analyze recent trending topics in our niche\",\n            \"action\": \"analyze_trends\",\n            \"parameters\": \x7b\"topics\": [\"tech\", \"AI\"], \"timeframe\": \"24h\"\x7d\n        \x7d,\n        \x7b\n            \"reasoning\": \"Draft and post content when our audience is most active\",\n            \"action\": \"post_tweet\",\n            \"parameters\": \x7b\"content\": \"...\", \"schedule\": \"optimal_time\"\x7d\n        \x7d\n    ]\n\x7d"

/-- Verbatim `DEFAULT_USER_TEMPLATE` from game/core/templates.py. -/
def DEFAULT_USER_TEMPLATE : String :=
  "Current State:\n\x7bstate\x7d\n\nAction History:\n\x7baction_history\x7d\n\nGoal:\n\x7bgoal\x7d\n\nGiven this, think through what needs to be accomplished and develop a plan of action. Explain your overall strategy and then break it down into specific steps."

/-- Scan of a replacement field format spec in `str.format`: brace-depth
counting exactly as CPython does (each open brace increments, each close
brace decrements; the scan ends at the close brace reaching depth zero),
returning the remainder after the closing brace. -/
def skipFormatSpec : List Char → Nat → Option (List Char)
  | [], _ => none
  | c :: cs, depth =>
    if c = lbrace then skipFormatSpec cs (depth + 1)
    else if c = rbrace then
      if depth = 1 then some cs else skipFormatSpec cs (depth - 1)
    else skipFormatSpec cs depth

/-- The worker of the `str.format` model: scans the template left to right,
expanding escaped braces, and for each replacement field parses the field
name (up to a conversion marker, a colon, or the closing brace), skips any
format spec by brace counting, then looks the name up among the keyword
arguments — an absent name raises `KeyError`, mirroring CPython evaluation
order (the template is fully parsed around a field before its lookup).
Format specs are not applied to found values: no modelled template attaches
a spec to a field that is found.  The fuel is the template length plus one;
each step consumes at least one character, so the fuel branch is
unreachable from `pyFormat`. -/
def pyFormatAux (args : List (String × String)) :
    Nat → List Char → String → Except PyErr String
  | 0, _, _ => .error (.other "format fuel exhausted")
  | _ + 1, [], acc => .ok acc
  | fuel + 1, c :: cs, acc =>
    if c = lbrace then
      match cs with
      | [] => .error (.valueError "Single brace encountered in format string")
      | c2 :: cs2 =>
        if c2 = lbrace then pyFormatAux args fuel cs2 (acc.push lbrace)
        else
          let nameChars := cs.takeWhile fun ch => !(ch == '!' || ch == ':' || ch == rbrace)
          let fname := String.mk nameChars
          match cs.drop nameChars.length with
          | [] => .error (.valueError "expected closing brace before end of string")
          | d :: rest =>
            if d = rbrace then
              match args.lookup fname with
              | some v => pyFormatAux args fuel rest (acc ++ v)
              | none => .error (.keyError fname)
            else if d = ':' then
              match skipFormatSpec rest 1 with
              | none => .error (.valueError "unmatched brace in format spec")
              | some rest2 =>
                match args.lookup fname with
                | some v => pyFormatAux args fuel rest2 (acc ++ v)
                | none => .error (.keyError fname)
            else .error (.valueError "conversion markers are not modelled")
    else if c = rbrace then
      match cs with
      | c2 :: cs2 =>
        if c2 = rbrace then pyFormatAux args fuel cs2 (acc.push rbrace)
        else .error (.valueError "Single brace encountered in format string")
      | [] => .error (.valueError "Single brace encountered in format string")
    else pyFormatAux args fuel cs (acc.push c)

/-- Model of Python `template.format(**args)` as used by the prompt
builders. -/
def pyFormat (template : String) (args : List (String × String)) :
    Except PyErr String :=
  pyFormatAux args (template.length + 1) template.toList ""

/-- Model of `Agent.build_system_prompt`: formats the system template with the five
documented keyword arguments (each argument value a rendered string). -/
def build_system_prompt (ag : Agent) : Except PyErr String :=
  pyFormat ag.system_template
    [("character_info", dumps (.obj ag.character_info)),
     ("world_description", ag.env.world_description),
     ("state_descriptions", dumps ag.env.state_descriptions),
     ("available_actions", dumps (descsToVal ag.action_registry.get_action_descriptions)),
     ("agent_guidelines",
       String.intercalate "\n" (ag.agent_guidelines.map fun g => "- " ++ g))]

/-- Model of `Agent.build_user_prompt`: renders the action history (which may raise),
then formats the user template with `state` and `action_history`. -/
def build_user_prompt (ag : Agent) (state : Val) : Except PyErr String := do
  let history ← format_action_history ag
  pyFormat ag.user_template
    [("state", dumps state), ("action_history", history)]


/-- Skip JSON whitespace (space, tab, newline, carriage return). -/
def skipWs : List Char → List Char
  | [] => []
  | c :: cs =>
    if c == ' ' || c == '\t' || c == '\n' || c == '\r' then skipWs cs else c :: cs

/-- Hexadecimal digit value, for `\uXXXX` escapes. -/
def hexVal (c : Char) : Option Nat :=
  if '0' ≤ c ∧ c ≤ '9' then some (c.toNat - '0'.toNat)
  else if 'a' ≤ c ∧ c ≤ 'f' then some (c.toNat - 'a'.toNat + 10)
  else if 'A' ≤ c ∧ c ≤ 'F' then some (c.toNat - 'A'.toNat + 10)
  else none

/-- Body of a JSON string (after the opening quote), with the standard
escapes; `\uXXXX` maps to the code point (surrogate pairs are not combined —
a simplification; no claim involves non-BMP text). -/
def parseStringBody : Nat → List Char → String → Option (String × List Char)
  | 0, _, _ => none
  | fuel + 1, cs, acc =>
    match cs with
    | [] => none
    | c :: rest =>
      if c = '"' then some (acc, rest)
      else if c = '\\' then
        match rest with
        | [] => none
        | e :: rest2 =>
          if e = '"' then parseStringBody fuel rest2 (acc.push '"')
          else if e = '\\' then parseStringBody fuel rest2 (acc.push '\\')
          else if e = '/' then parseStringBody fuel rest2 (acc.push '/')
          else if e = 'b' then parseStringBody fuel rest2 (acc.push (Char.ofNat 8))
          else if e = 'f' then parseStringBody fuel rest2 (acc.push (Char.ofNat 12))
          else if e = 'n' then parseStringBody fuel rest2 (acc.push '\n')
          else if e = 'r' then parseStringBody fuel rest2 (acc.push '\r')
          else if e = 't' then parseStringBody fuel rest2 (acc.push '\t')
          else if e = 'u' then
            match rest2 with
            | h1 :: h2 :: h3 :: h4 :: rest3 =>
              match hexVal h1, hexVal h2, hexVal h3, hexVal h4 with
              | some a, some b, some c3, some d =>
                parseStringBody fuel rest3
                  (acc.push (Char.ofNat (((a * 16 + b) * 16 + c3) * 16 + d)))
              | _, _, _, _ => none
            | _ => none
          else none
      else parseStringBody fuel rest (acc.push c)

/-- Decimal digits to a natural number. -/
def digitsToNat (ds : List Char) : Nat :=
  ds.foldl (fun acc c => acc * 10 + (c.toNat - '0'.toNat)) 0

/-- A JSON number.  Integers decode to `Val.num`; a number with a fraction
or exponent part decodes to `Val.flt` carrying its lexeme (floating point is
not computed with anywhere in the modelled code).  Leading-zero rejection is
not modelled. -/
def parseNumber (cs : List Char) : Option (Val × List Char) :=
  let (sign, cs1) : Int × List Char :=
    match cs with
    | c :: rest => if c = '-' then (-1, rest) else (1, cs)
    | [] => (1, cs)
  let intDigits := cs1.takeWhile Char.isDigit
  if intDigits.isEmpty then none
  else
    let cs2 := cs1.drop intDigits.length
    let (fracDigits, cs3) :=
      match cs2 with
      | c :: rest =>
        if c = '.' then
          let fd := rest.takeWhile Char.isDigit
          (('.' :: fd), rest.drop fd.length)
        else ([], cs2)
      | [] => ([], cs2)
    if fracDigits.length == 1 then none  -- a dot with no digits is invalid
    else
      let (expDigits, cs4) :=
        match cs3 with
        | c :: rest =>
          if c = 'e' ∨ c = 'E' then
            match rest with
            | s :: rest2 =>
              if s = '+' ∨ s = '-' then
                let ed := rest2.takeWhile Char.isDigit
                (c :: s :: ed, rest2.drop ed.length)
              else
                let ed := rest.takeWhile Char.isDigit
                (c :: ed, rest.drop ed.length)
            | [] => ([c], rest)
          else ([], cs3)
        | [] => ([], cs3)
      let expDigitCount := (expDigits.filter Char.isDigit).length
      if !expDigits.isEmpty ∧ expDigitCount == 0 then none
      else if fracDigits.isEmpty ∧ expDigits.isEmpty then
        some (.num (sign * (digitsToNat intDigits : Nat)), cs2)
      else
        some (.flt (String.mk ((if sign < 0 then ['-'] else []) ++ intDigits
                ++ fracDigits ++ expDigits)), cs4)

mutual
/-- Model of the JSON value grammar accepted by `json.loads` (the Python
extensions `NaN`/`Infinity` are not modelled; no claim involves them). -/
def parseVal : Nat → List Char → Option (Val × List Char)
  | 0, _ => none
  | fuel + 1, cs =>
    match skipWs cs with
    | [] => none
    | c :: rest =>
      if c = 'n' then
        match rest with
        | 'u' :: 'l' :: 'l' :: r => some (.null, r)
        | _ => none
      else if c = 't' then
        match rest with
        | 'r' :: 'u' :: 'e' :: r => some (.bool true, r)
        | _ => none
      else if c = 'f' then
        match rest with
        | 'a' :: 'l' :: 's' :: 'e' :: r => some (.bool false, r)
        | _ => none
      else if c = '"' then
        match parseStringBody fuel rest "" with
        | some (s, r) => some (.str s, r)
        | none => none
      else if c = '[' then
        match skipWs rest with
        | d :: r2 => if d = ']' then some (.arr [], r2) else parseArrElems fuel (skipWs rest) []
        | [] => none
      else if c = lbrace then
        match skipWs rest with
        | d :: r2 => if d = rbrace then some (.obj [], r2) else parseObjMembers fuel (skipWs rest) []
        | [] => none
      else if c.isDigit ∨ c = '-' then parseNumber (c :: rest)
      else none

/-- Comma-separated array elements up to the closing bracket. -/
def parseArrElems : Nat → List Char → List Val → Option (Val × List Char)
  | 0, _, _ => none
  | fuel + 1, cs, acc =>
    match parseVal fuel cs with
    | none => none
    | some (v, r) =>
      match skipWs r with
      | ',' :: r2 => parseArrElems fuel r2 (acc ++ [v])
      | d :: r2 => if d = ']' then some (.arr (acc ++ [v]), r2) else none
      | [] => none

/-- Comma-separated object members up to the closing brace; duplicate keys
follow Python dict semantics (the later member wins). -/
def parseObjMembers : Nat → List Char → List (String × Val) → Option (Val × List Char)
  | 0, _, _ => none
  | fuel + 1, cs, acc =>
    match cs with
    | c :: rest =>
      if c = '"' then
        match parseStringBody fuel rest "" with
        | some (k, r2) =>
          match skipWs r2 with
          | ':' :: r3 =>
            match parseVal fuel r3 with
            | some (v, r4) =>
              match skipWs r4 with
              | ',' :: r5 => parseObjMembers fuel (skipWs r5) (objInsert acc k v)
              | d :: r5 =>
                if d = rbrace then some (.obj (objInsert acc k v), r5) else none
              | [] => none
            | none => none
          | _ => none
        | none => none
      else none
    | [] => none
end

/-- Model of `json.loads`: parse one JSON value and require only whitespace
after it; `none` models `json.JSONDecodeError`. -/
def parseJson (s : String) : Option Val :=
  match parseVal (s.length + 1) s.toList with
  | some (v, rest) => if (skipWs rest).isEmpty then some v else none
  | none => none

/-- Model of `Agent.get_next_action`: build both prompts, call the provider (modelled
as the oracle `generate_response`, returning the response `content` text or
raising), then `json.loads` the text inside a `try/except` that re-raises a
decode failure as `ValueError`.  A decoded value is returned as-is — no
schema validation. -/
def get_next_action (ag : Agent)
    (generate_response : String → String → Except PyErr String) (state : Val) :
    Except PyErr Val := do
  let system_prompt ← build_system_prompt ag
  let user_prompt ← build_user_prompt ag state
  let content ← generate_response system_prompt user_prompt
  match parseJson content with
  | some v => pure v
  | none => .error (.valueError "LLM response was not in the expected JSON format")

/-- Result of one iteration of the loop body of `Agent.run_loop`. -/
inductive StepRes where
  | ok
  | failed (msg : String)
  | errored (e : PyErr)
deriving DecidableEq

/-- The fallible first part of the loop body of `Agent.run_loop` (steps 1-3:
state fetch, next-action resolution, extraction): pop `action` (required)
and `reasoning` (defaulted to `""`) from the decoded mapping, leaving the
remaining keys as the parameters. -/
def step_attempt (ag : Agent)
    (generate_response : String → String → Except PyErr String)
    (get_state : Except PyErr Val) :
    Except PyErr (Val × Val × List (String × Val)) := do
  let state ← get_state
  let action_data ← get_next_action ag generate_response state
  let (action_name, rest) ← dictPopReq action_data "action"
  let (reasoning, rest2) := dictPopDef rest "reasoning" (.str "")
  pure (action_name, reasoning, rest2)

/-- One iteration of the loop body of `Agent.run_loop`, including its
`try/except`: a raised exception anywhere in steps 1-4 is caught and ends
the loop (`errored`); a failure result from `execute_action` ends the loop
(`failed`); otherwise the loop continues with the updated agent
(`asyncio.sleep(1)` is effect-free here). -/
def run_step (ag : Agent) (generate_response : String → String → Except PyErr String)
    (get_state : Except PyErr Val) : Agent × StepRes :=
  match step_attempt ag generate_response get_state with
  | .error e => (ag, .errored e)
  | .ok (action_name, reasoning, kwargs) =>
    let (result, ag2) := execute_action ag action_name reasoning kwargs
    if result.success then (ag2, .ok) else (ag2, .failed result.message)

/-- The iteration of `Agent.run_loop` over `for step in range(max_steps)`,
threading the agent and collecting the per-iteration results; the loop stops
at the first iteration that does not continue (`break` in both the failure
and the exception branch). -/
def run_loop_aux (generate_response : Nat → String → String → Except PyErr String)
    (env_get_state : Nat → Except PyErr Val) :
    Agent → Nat → Nat → Agent × List StepRes
  | ag, _, 0 => (ag, [])
  | ag, step, n + 1 =>
    match run_step ag (generate_response step) (env_get_state step) with
    | (ag2, .ok) =>
      let (ag3, tr) := run_loop_aux generate_response env_get_state ag2 (step + 1) n
      (ag3, .ok :: tr)
    | (ag2, r) => (ag2, [r])

/-- Model of `Agent.run_loop`: at most `max_steps` iterations starting at step 0.
The collaborators are step-indexed oracles (capturing their statefulness);
the returned trace lists the outcome of each executed iteration. -/
def run_loop (ag : Agent)
    (generate_response : Nat → String → String → Except PyErr String)
    (env_get_state : Nat → Except PyErr Val) (max_steps : Nat) :
    Agent × List StepRes :=
  run_loop_aux generate_response env_get_state ag 0 max_steps

/-- The terminal states of the run loop as the specification names them. -/
inductive LoopOutcome where
  | completed
  | stoppedOnFailure (msg : String)
  | stoppedOnError (e : PyErr)
deriving DecidableEq

/-- The terminal state reached by a run whose iteration trace is given: an
iteration trace ending in a failure or an error stopped the loop there;
otherwise the loop ran out of steps. -/
def loop_outcome (tr : List StepRes) : LoopOutcome :=
  match tr.getLast? with
  | some (.failed m) => .stoppedOnFailure m
  | some (.errored e) => .stoppedOnError e
  | _ => .completed


/-- One `execute_action` call: the action name and reasoning as passed (in
`run_loop` these come out of decoded JSON, hence `Val`), and the keyword
arguments. -/
structure CallSpec where
  name : Val
  reasoning : Val
  kwargs : List (String × Val)

/-- A sequence of `execute_action` calls, threading the agent. -/
def run_calls (ag : Agent) (cs : List CallSpec) : Agent :=
  cs.foldl (fun a c => (execute_action a c.name c.reasoning c.kwargs).2) ag

/-- The handler return value of a call (meaningful when the call succeeds). -/
def resultOf (reg : ActionRegistry) (c : CallSpec) : Val :=
  match reg.get_action_v c.name with
  | some a =>
    match a.func c.kwargs with
    | .ok r => r
    | .error _ => .null
  | none => .null

/-- The history entry a successful call appends. -/
def entryOf (reg : ActionRegistry) (c : CallSpec) : List (String × Val) :=
  mkHistEntry c.name c.kwargs c.reasoning (resultOf reg c)

/-- Composed drops across an append: dropping inside the left part and then
dropping again is one combined drop. -/
theorem drop_append_drop {α : Type} (xs ys : List α) (d k : Nat)
    (hd : d ≤ xs.length) :
    (xs.drop d ++ ys).drop k = (xs ++ ys).drop (d + k) := by
  rw [← List.drop_append_of_le_length hd, List.drop_drop]

/-- The registry is unchanged by `execute_action`. -/
theorem execute_action_registry (ag : Agent) (n r : Val) (kw : List (String × Val)) :
    ((execute_action ag n r kw).2).action_registry = ag.action_registry := by
  cases hA : ag.action_registry.get_action_v n with
  | none => simp [execute_action, hA]
  | some a => cases hF : a.func kw <;> simp [execute_action, hA, hF]

/-- The field `max_history` is unchanged by `execute_action`. -/
theorem execute_action_max_history (ag : Agent) (n r : Val) (kw : List (String × Val)) :
    ((execute_action ag n r kw).2).max_history = ag.max_history := by
  cases hA : ag.action_registry.get_action_v n with
  | none => simp [execute_action, hA]
  | some a => cases hF : a.func kw <;> simp [execute_action, hA, hF]

/-- The result of `execute_action` is a success exactly when the name
resolves and the handler returns normally. -/
theorem execute_action_success_iff (ag : Agent) (n r : Val) (kw : List (String × Val)) :
    ((execute_action ag n r kw).1).success = true
      ↔ ∃ a v, ag.action_registry.get_action_v n = some a ∧ a.func kw = .ok v := by
  cases hA : ag.action_registry.get_action_v n with
  | none => simp [execute_action, hA]
  | some a => cases hF : a.func kw <;> simp [execute_action, hA, hF]

/-- History after a successful `execute_action`: the entry is appended and
the oldest entry is evicted exactly when the capacity is exceeded. -/
theorem execute_action_hist_ok (ag : Agent) (n r : Val) (kw : List (String × Val))
    (a : Action) (v : Val) (hA : ag.action_registry.get_action_v n = some a)
    (hF : a.func kw = .ok v) :
    ((execute_action ag n r kw).2).action_history
      = (if ag.max_history < (ag.action_history ++ [mkHistEntry n kw r v]).length
         then (ag.action_history ++ [mkHistEntry n kw r v]).drop 1
         else ag.action_history ++ [mkHistEntry n kw r v]) := by
  simp only [execute_action, hA, hF]

/-- The agent is untouched by a failed `execute_action`. -/
theorem execute_action_fail_unchanged (ag : Agent) (n r : Val)
    (kw : List (String × Val))
    (h : ¬ ∃ a v, ag.action_registry.get_action_v n = some a ∧ a.func kw = .ok v) :
    ((execute_action ag n r kw).2) = ag := by
  cases hA : ag.action_registry.get_action_v n with
  | none => simp [execute_action, hA]
  | some a =>
    cases hF : a.func kw with
    | error e => simp [execute_action, hA, hF]
    | ok v => exact absurd ⟨a, v, hA, hF⟩ h

/-- The window equation for a run of successful calls: starting within
capacity, the final history is the concatenation of the old history with
all appended entries, cut down to the last `max_history` of them. -/
theorem run_calls_hist (cs : List CallSpec) (ag : Agent)
    (hlen : ag.action_history.length ≤ ag.max_history)
    (hsucc : ∀ c ∈ cs, ∃ a v,
      ag.action_registry.get_action_v c.name = some a ∧ a.func c.kwargs = .ok v) :
    (run_calls ag cs).action_history
      = (ag.action_history ++ cs.map (entryOf ag.action_registry)).drop
          ((ag.action_history.length + cs.length) - ag.max_history) := by
  induction cs generalizing ag with
  | nil =>
    simp only [run_calls, List.foldl_nil, List.map_nil, List.append_nil, List.length_nil]
    rw [Nat.add_zero, Nat.sub_eq_zero_of_le hlen, List.drop_zero]
  | cons c cs ih =>
    obtain ⟨a, v, hA, hF⟩ := hsucc c (List.mem_cons_self c cs)
    have hstep := execute_action_hist_ok ag c.name c.reasoning c.kwargs a v hA hF
    have hreg := execute_action_registry ag c.name c.reasoning c.kwargs
    have hmax := execute_action_max_history ag c.name c.reasoning c.kwargs
    set ag1 := (execute_action ag c.name c.reasoning c.kwargs).2 with hag1
    have hres : resultOf ag.action_registry c = v := by
      simp [resultOf, hA, hF]
    have hcall : run_calls ag (c :: cs) = run_calls ag1 cs := by
      simp [run_calls]
    have hsucc1 : ∀ c2 ∈ cs, ∃ a2 v2,
        ag1.action_registry.get_action_v c2.name = some a2
          ∧ a2.func c2.kwargs = .ok v2 := by
      intro c2 hc2
      rw [hreg]
      exact hsucc c2 (List.mem_cons_of_mem c hc2)
    have happlen : (ag.action_history ++ [mkHistEntry c.name c.kwargs c.reasoning v]).length
        = ag.action_history.length + 1 := by
      simp
    rw [hcall]
    by_cases hcap : ag.max_history
        < (ag.action_history ++ [mkHistEntry c.name c.kwargs c.reasoning v]).length
    · -- eviction: the history was exactly at capacity
      rw [if_pos hcap] at hstep
      have hlen1 : ag1.action_history.length ≤ ag1.max_history := by
        rw [hstep, hmax, List.length_drop, happlen]
        omega
      rw [ih ag1 hlen1 hsucc1, hstep, hmax, hreg]
      rw [drop_append_drop _ _ 1 _ (by simp)]
      rw [List.append_assoc, List.singleton_append, List.map_cons]
      simp only [entryOf, hres]
      congr 1
      simp only [List.length_drop, happlen, List.length_map, List.length_cons]
      omega
    · -- no eviction
      rw [if_neg hcap] at hstep
      have hlen1 : ag1.action_history.length ≤ ag1.max_history := by
        rw [hstep, hmax, happlen]
        omega
      rw [ih ag1 hlen1 hsucc1, hstep, hmax, hreg]
      rw [List.append_assoc, List.singleton_append, List.map_cons]
      simp only [entryOf, hres]
      congr 1
      simp only [happlen, List.length_map, List.length_cons]
      omega


/-- A trivial always-succeeding handler used by the concrete instances. -/
def waveAction : Action :=
  ⟨fun _ => .ok (.str "waved"), "Wave hello", [], []⟩

/-- A concrete agent: default templates, one registered action, fresh
history — the state `Agent.__init__` produces after one
`register_action("wave", ...)`. -/
def agent0 : Agent :=
  { system_template := DEFAULT_SYSTEM_TEMPLATE
    user_template := DEFAULT_USER_TEMPLATE
    character_info := []
    agent_guidelines := []
    action_registry := ActionRegistry.register emptyRegistry "wave" waveAction
    action_history := []
    max_history := 5
    env := ⟨.obj [], "A test world"⟩ }

/-- C1: an empty history renders the fixed sentence, but a non-empty history
whose entries were appended by `execute_action` is NOT rendered: the
rendering reads the key `timestamp`, which `execute_action` never stores, so
`_format_action_history` raises `KeyError('timestamp')` on the very first
retained entry instead of producing one line per entry. -/
theorem C1_history_rendering_raises_keyerror :
    format_action_history agent0 = .ok "No previous actions taken."
    ∧ ((execute_action agent0 (.str "wave") (.str "greet") []).1).success = true
    ∧ format_action_history ((execute_action agent0 (.str "wave") (.str "greet") []).2)
        = .error (.keyError "timestamp") :=
  ⟨rfl, rfl, rfl⟩

/-- C2: with the provided default templates, prompt construction does NOT
succeed — it always raises.  The default user template contains the
placeholder `goal`, which `build_user_prompt` never supplies
(`KeyError('goal')` already on an empty history and empty state), and the
default system template contains unescaped literal braces around its JSON
examples, so `build_system_prompt` raises a `KeyError` whose key is the
malformed field name found there. -/
theorem C2_default_templates_substitution_fails :
    build_user_prompt agent0 (.obj []) = .error (.keyError "goal")
    ∧ build_system_prompt agent0 = .error (.keyError "\n    \"reasoning\"") :=
  ⟨rfl, rfl⟩


/-- C3: for every sequence of successful `execute_action` calls starting
from an empty history with positive `max_history`, the final history is
exactly the last `min(K, max_history)` appended entries, oldest first, and
its length is `min(K, max_history)`. -/
theorem C3_successful_runs_keep_last_window (ag : Agent) (cs : List CallSpec)
    (hempty : ag.action_history = [])
    (hpos : 0 < ag.max_history)
    (hsucc : ∀ c ∈ cs,
      ((execute_action ag c.name c.reasoning c.kwargs).1).success = true) :
    (run_calls ag cs).action_history
        = sliceLastPy (cs.map (entryOf ag.action_registry)) ag.max_history
    ∧ (run_calls ag cs).action_history.length = min cs.length ag.max_history := by
  have hsucc' : ∀ c ∈ cs, ∃ a v,
      ag.action_registry.get_action_v c.name = some a ∧ a.func c.kwargs = .ok v :=
    fun c hc => (execute_action_success_iff ag c.name c.reasoning c.kwargs).mp (hsucc c hc)
  have hlen : ag.action_history.length ≤ ag.max_history := by
    rw [hempty]; exact Nat.zero_le _
  have hmain := run_calls_hist cs ag hlen hsucc'
  rw [hempty] at hmain
  simp only [List.nil_append, List.length_nil, Nat.zero_add] at hmain
  constructor
  · rw [hmain]
    unfold sliceLastPy
    rw [if_neg (by omega), List.length_map]
  · rw [hmain, List.length_drop, List.length_map]
    omega

/-- A second and a third always-succeeding action for the three-action
scenario. -/
def actionY : Action := ⟨fun _ => .ok (.str "done-y"), "Y", [], []⟩

/-- See `actionY`. -/
def actionZ : Action := ⟨fun _ => .ok (.str "done-z"), "Z", [], []⟩

/-- The agent of end-to-end scenario D: `max_history = 2` and three
registered actions. -/
def agentD : Agent :=
  { system_template := "S", user_template := "U", character_info := [],
    agent_guidelines := [],
    action_registry :=
      ((emptyRegistry.register "x" waveAction).register "y" actionY).register "z" actionZ,
    action_history := [], max_history := 2, env := ⟨.obj [], "w"⟩ }

/-- The three successful calls of scenario D, in order. -/
def callsD : List CallSpec :=
  [⟨.str "x", .str "", []⟩, ⟨.str "y", .str "", []⟩, ⟨.str "z", .str "", []⟩]

/-- Witness for C3: scenario D — after X, Y, Z with capacity two the history
is the last two entries, [Y, Z]. -/
theorem C3_witness :
    ((run_calls agentD callsD).action_history
        = sliceLastPy (callsD.map (entryOf agentD.action_registry)) agentD.max_history
      ∧ (run_calls agentD callsD).action_history.length
          = min callsD.length agentD.max_history)
    ∧ (run_calls agentD callsD).action_history
        = [entryOf agentD.action_registry ⟨.str "y", .str "", []⟩,
           entryOf agentD.action_registry ⟨.str "z", .str "", []⟩] :=
  ⟨C3_successful_runs_keep_last_window agentD callsD rfl (by decide)
      (by
        intro c hc
        simp only [callsD, List.mem_cons, List.not_mem_nil, or_false] at hc
        rcases hc with rfl | rfl | rfl <;> rfl),
   rfl⟩

/-- C4: for a registered action (history within capacity): a raising handler
yields a failure result carrying the stringified failure and leaves the
agent — in particular the history — unchanged; a returning handler yields a
success result wrapping the returned value and appends exactly one entry
recording name, parameters, reasoning and value (evicting the oldest entry
exactly when capacity would be exceeded). -/
theorem C4_execute_action_contract (ag : Agent) (n r : Val) (kw : List (String × Val))
    (a : Action) (hA : ag.action_registry.get_action_v n = some a)
    (hcap : ag.action_history.length ≤ ag.max_history) :
    (∀ e, a.func kw = .error e →
      (execute_action ag n r kw).1 = ⟨false, "Action failed: " ++ e.toStr, .null⟩
        ∧ (execute_action ag n r kw).2 = ag)
    ∧ (∀ v, a.func kw = .ok v →
      (execute_action ag n r kw).1 = ⟨true, "Action executed successfully", v⟩
        ∧ ((execute_action ag n r kw).2).action_history
            = (ag.action_history ++ [mkHistEntry n kw r v]).drop
                ((ag.action_history.length + 1) - ag.max_history)) := by
  constructor
  · intro e hF
    constructor <;> simp [execute_action, hA, hF]
  · intro v hF
    constructor
    · simp [execute_action, hA, hF]
    · rw [execute_action_hist_ok ag n r kw a v hA hF]
      by_cases h : ag.max_history < (ag.action_history ++ [mkHistEntry n kw r v]).length
      · rw [if_pos h]
        rw [List.length_append, List.length_singleton] at h
        congr 1
        omega
      · rw [if_neg h]
        rw [List.length_append, List.length_singleton] at h
        have hz : (ag.action_history.length + 1) - ag.max_history = 0 := by omega
        rw [hz, List.drop_zero]

/-- An always-raising handler for the failure branch. -/
def boomAction : Action :=
  ⟨fun _ => .error (.valueError "boom"), "Always raises", [], []⟩

/-- An agent with one succeeding and one raising action. -/
def agentF : Agent :=
  { system_template := "S", user_template := "U", character_info := [],
    agent_guidelines := [],
    action_registry := (emptyRegistry.register "wave" waveAction).register "boom" boomAction,
    action_history := [], max_history := 5, env := ⟨.obj [], "w"⟩ }

/-- Witness for C4: both branches at concrete inputs. -/
theorem C4_witness :
    ((execute_action agentF (.str "boom") (.str "") []).1
        = ⟨false, "Action failed: boom", .null⟩
      ∧ (execute_action agentF (.str "boom") (.str "") []).2 = agentF)
    ∧ ((execute_action agentF (.str "wave") (.str "") []).1
        = ⟨true, "Action executed successfully", .str "waved"⟩
      ∧ ((execute_action agentF (.str "wave") (.str "") []).2).action_history
          = (agentF.action_history
              ++ [mkHistEntry (.str "wave") [] (.str "") (.str "waved")]).drop
                ((agentF.action_history.length + 1) - agentF.max_history)) :=
  ⟨(C4_execute_action_contract agentF (.str "boom") (.str "") [] boomAction rfl
      (by decide)).1 (.valueError "boom") rfl,
   (C4_execute_action_contract agentF (.str "wave") (.str "") [] waveAction rfl
      (by decide)).2 (.str "waved") rfl⟩

/-- C5: executing a name absent from the registry returns (without raising)
a failure result whose message names the action, and returns the agent —
hence the history — unchanged. -/
theorem C5_unregistered_action_not_found (ag : Agent) (name : String) (r : Val)
    (kw : List (String × Val))
    (h : ag.action_registry.get_action name = none) :
    execute_action ag (.str name) r kw
      = (⟨false, "Action \x27" ++ name ++ "\x27 not found", .null⟩, ag) := by
  simp [execute_action, ActionRegistry.get_action_v, h, Val.pyStr]

/-- Witness for C5 at a concrete unregistered name. -/
theorem C5_witness :
    execute_action agent0 (.str "fly") (.str "try") []
      = (⟨false, "Action \x27fly\x27 not found", .null⟩, agent0) :=
  C5_unregistered_action_not_found agent0 "fly" (.str "try") [] rfl

/-- C6: once both prompts build and the provider returns a text, the
behaviour of `get_next_action` is decided by JSON parsing alone: an
unparseable text raises the fixed `ValueError` (nothing partial is
returned), and a parseable text returns the decoded value as-is with no
further schema validation. -/
theorem C6_get_next_action_parse_contract (ag : Agent)
    (gen : String → String → Except PyErr String) (state : Val)
    (sp up txt : String)
    (hsp : build_system_prompt ag = .ok sp)
    (hup : build_user_prompt ag state = .ok up)
    (hgen : gen sp up = .ok txt) :
    (parseJson txt = none →
      get_next_action ag gen state
        = .error (.valueError "LLM response was not in the expected JSON format"))
    ∧ (∀ v, parseJson txt = some v → get_next_action ag gen state = .ok v) := by
  constructor
  · intro hp
    simp [get_next_action, hsp, hup, hgen, hp, bind, Except.bind]
  · intro v hp
    simp [get_next_action, hsp, hup, hgen, hp, bind, Except.bind, pure, Except.pure]

/-- An agent whose templates are plain strings without placeholders, so
both prompt builds succeed. -/
def agentPlain : Agent :=
  { system_template := "SYS", user_template := "USR", character_info := [],
    agent_guidelines := [],
    action_registry := emptyRegistry.register "wave" waveAction,
    action_history := [], max_history := 5, env := ⟨.obj [], "w"⟩ }

/-- Witness for C6: a non-JSON text raises the format error; a JSON text is
returned decoded. -/
theorem C6_witness :
    get_next_action agentPlain (fun _ _ => .ok "not json") (.obj [])
        = .error (.valueError "LLM response was not in the expected JSON format")
    ∧ get_next_action agentPlain (fun _ _ => .ok "\x7b\"action\": \"wave\"\x7d") (.obj [])
        = .ok (.obj [("action", .str "wave")]) :=
  ⟨(C6_get_next_action_parse_contract agentPlain (fun _ _ => .ok "not json") (.obj [])
      "SYS" "USR" "not json" rfl rfl rfl).1 rfl,
   (C6_get_next_action_parse_contract agentPlain
      (fun _ _ => .ok "\x7b\"action\": \"wave\"\x7d") (.obj [])
      "SYS" "USR" "\x7b\"action\": \"wave\"\x7d" rfl rfl rfl).2
      (.obj [("action", .str "wave")]) rfl⟩


/-- The registry after a sequence of registrations, in order. -/
def mkRegistry (rs : List (String × Action)) : ActionRegistry :=
  rs.foldl (fun reg p => reg.register p.1 p.2) emptyRegistry

/-- The most recent registration of a name in a sequence, if any. -/
def lastRegistered (rs : List (String × Action)) (n : String) : Option Action :=
  rs.foldl (fun acc p => if p.1 = n then some p.2 else acc) none

/-- Unfolding of association-list lookup at a cons cell. -/
theorem lookup_cons_pair {α : Type} (n : String) (p : String × α)
    (tl : List (String × α)) :
    List.lookup n (p :: tl) = if n == p.1 then some p.2 else List.lookup n tl := by
  cases hnp : n == p.1 <;> simp [List.lookup, hnp]

/-- Replacing the value at one key does not affect lookups of other keys. -/
theorem lookup_map_replace_ne (tl : List (String × Action)) (m n : String)
    (a : Action) (hn : n ≠ m) :
    List.lookup n (tl.map fun p => if p.1 == m then (m, a) else p)
      = List.lookup n tl := by
  induction tl with
  | nil => rfl
  | cons p tl ih =>
    rw [List.map_cons, lookup_cons_pair, lookup_cons_pair, ih]
    by_cases hk : p.1 = m
    · have h1 : (n == m) = false := beq_eq_false_iff_ne.mpr hn
      have h2 : (n == p.1) = false :=
        beq_eq_false_iff_ne.mpr (fun h => hn (h.trans hk))
      simp [hk, h1, h2]
    · have hk' : (p.1 == m) = false := beq_eq_false_iff_ne.mpr hk
      simp [hk']

/-- After an in-place replacement of a present key, lookup finds the new
value. -/
theorem lookup_map_replace_found (reg : List (String × Action)) (n : String)
    (a : Action) (hAny : (List.any reg fun p => p.1 == n) = true) :
    List.lookup n (reg.map fun p => if p.1 == n then (n, a) else p) = some a := by
  induction reg with
  | nil => simp at hAny
  | cons p tl ih =>
    rw [List.map_cons]
    by_cases hk : p.1 = n
    · simp only [hk, beq_self_eq_true, if_true]
      rw [lookup_cons_pair]
      simp
    · have hk' : (p.1 == n) = false := beq_eq_false_iff_ne.mpr hk
      have hnk : (n == p.1) = false :=
        beq_eq_false_iff_ne.mpr (fun h => hk h.symm)
      simp only [hk', Bool.false_eq_true, if_false]
      rw [lookup_cons_pair]
      simp only [hnk, Bool.false_eq_true, if_false]
      apply ih
      simp only [List.any_cons, hk', Bool.false_or] at hAny
      exact hAny

/-- Appending an entry for a fresh key does not affect other lookups. -/
theorem lookup_append_other {α : Type} (xs : List (String × α)) (n m : String)
    (v : α) (hmn : m ≠ n) :
    List.lookup n (xs ++ [(m, v)]) = List.lookup n xs := by
  induction xs with
  | nil =>
    have : (n == m) = false := beq_eq_false_iff_ne.mpr (fun h => hmn h.symm)
    simp [List.lookup, this]
  | cons p tl ih =>
    rw [List.cons_append, lookup_cons_pair, lookup_cons_pair, ih]

/-- Appending an entry for a key absent so far makes lookup find it. -/
theorem lookup_append_self {α : Type} (xs : List (String × α)) (n : String)
    (v : α) (hAbs : List.lookup n xs = none) :
    List.lookup n (xs ++ [(n, v)]) = some v := by
  induction xs with
  | nil => simp [List.lookup]
  | cons p tl ih =>
    rw [List.cons_append, lookup_cons_pair]
    rw [lookup_cons_pair] at hAbs
    cases hnp : n == p.1 with
    | true => simp [hnp] at hAbs
    | false =>
      simp only [hnp, Bool.false_eq_true, if_false] at hAbs ⊢
      exact ih hAbs

/-- A key is absent from lookup when no entry carries it. -/
theorem lookup_eq_none_of_any_false {α : Type} (xs : List (String × α))
    (m : String) (hAny : (List.any xs fun p => p.1 == m) = false) :
    List.lookup m xs = none := by
  induction xs with
  | nil => rfl
  | cons p tl ih =>
    simp only [List.any_cons, Bool.or_eq_false_iff] at hAny
    rw [lookup_cons_pair]
    have hne : p.1 ≠ m := beq_eq_false_iff_ne.mp hAny.1
    have hf : (m == p.1) = false := beq_eq_false_iff_ne.mpr (fun h => hne h.symm)
    simp only [hf, Bool.false_eq_true, if_false]
    exact ih hAny.2

/-- A single registration, seen through lookup: the registered name now maps
to the new action and every other name is untouched. -/
theorem get_action_register (reg : ActionRegistry) (m n : String) (a : Action) :
    (reg.register m a).get_action n
      = if m = n then some a else reg.get_action n := by
  unfold ActionRegistry.get_action
  by_cases hAny : (List.any reg fun p => p.1 == m) = true
  · have hreg : reg.register m a
        = reg.map fun p => if p.1 == m then (m, a) else p := by
      unfold ActionRegistry.register
      rw [if_pos hAny]
    rw [hreg]
    by_cases hmn : m = n
    · subst hmn
      rw [if_pos rfl]
      exact lookup_map_replace_found reg m a hAny
    · rw [if_neg hmn]
      exact lookup_map_replace_ne reg m n a (fun h => hmn h.symm)
  · have hreg : reg.register m a = reg ++ [(m, a)] := by
      unfold ActionRegistry.register
      rw [if_neg hAny]
    rw [hreg]
    by_cases hmn : m = n
    · subst hmn
      rw [if_pos rfl]
      exact lookup_append_self reg m a
        (lookup_eq_none_of_any_false reg m (Bool.not_eq_true _ |>.mp hAny))
    · rw [if_neg hmn]
      exact lookup_append_other reg n m a hmn

/-- Lookup through a fold of registrations equals the fold of
last-registration updates. -/
theorem foldl_register_lookup (rs : List (String × Action)) (reg : ActionRegistry)
    (n : String) :
    (rs.foldl (fun r p => r.register p.1 p.2) reg).get_action n
      = rs.foldl (fun acc p => if p.1 = n then some p.2 else acc)
          (reg.get_action n) := by
  induction rs generalizing reg with
  | nil => rfl
  | cons p rs ih =>
    simp only [List.foldl_cons]
    rw [ih, get_action_register]

/-- Export lookup is registry lookup with the handler projected away. -/
theorem export_lookup (reg : ActionRegistry) (n : String) :
    List.lookup n reg.get_action_descriptions
      = (reg.get_action n).map describeAction := by
  unfold ActionRegistry.get_action
  induction reg with
  | nil => rfl
  | cons p tl ih =>
    show List.lookup n
          ((p.1, describeAction p.2) :: ActionRegistry.get_action_descriptions tl)
        = (List.lookup n (p :: tl)).map describeAction
    rw [lookup_cons_pair, lookup_cons_pair]
    cases hnp : n == p.1 with
    | true => simp [hnp]
    | false => simp [hnp, ih]

/-- A name has a last registration exactly when it occurs in the sequence. -/
theorem lastRegistered_isSome (rs : List (String × Action)) (n : String) :
    ((lastRegistered rs n).isSome = true) ↔ n ∈ rs.map Prod.fst := by
  have gen : ∀ (init : Option Action),
      ((rs.foldl (fun acc p => if p.1 = n then some p.2 else acc) init).isSome = true)
        ↔ (init.isSome = true ∨ n ∈ rs.map Prod.fst) := by
    induction rs with
    | nil => intro init; simp
    | cons p rs ih =>
      intro init
      simp only [List.foldl_cons, List.map_cons, List.mem_cons]
      rw [ih]
      by_cases hp : p.1 = n
      · simp [hp]
      · simp only [hp, if_false]
        constructor
        · rintro (h | h)
          · exact Or.inl h
          · exact Or.inr (Or.inr h)
        · rintro (h | h | h)
          · exact Or.inl h
          · exact absurd h.symm hp
          · exact Or.inr h
  rw [lastRegistered, gen none]
  simp

/-- Registering the same name twice in a row is literally the same registry
as registering only the later action. -/
theorem register_register (reg : ActionRegistry) (m : String) (a b : Action) :
    (reg.register m a).register m b = reg.register m b := by
  by_cases hAny : (List.any reg fun p => p.1 == m) = true
  · have h1 : reg.register m a
        = reg.map fun p => if p.1 == m then (m, a) else p := by
      unfold ActionRegistry.register; rw [if_pos hAny]
    have h1b : reg.register m b
        = reg.map fun p => if p.1 == m then (m, b) else p := by
      unfold ActionRegistry.register; rw [if_pos hAny]
    have hAny2 : (List.any (reg.map fun p => if p.1 == m then (m, a) else p)
        fun p => p.1 == m) = true := by
      rw [List.any_map, List.any_eq_true] at *
      obtain ⟨p, hp, hpm⟩ := hAny
      exact ⟨p, hp, by simp [Function.comp, hpm]⟩
    have h2 : (reg.register m a).register m b
        = (reg.map fun p => if p.1 == m then (m, a) else p).map
            fun p => if p.1 == m then (m, b) else p := by
      rw [h1]
      unfold ActionRegistry.register
      rw [if_pos hAny2]
    rw [h2, h1b, List.map_map]
    apply List.map_congr_left
    intro p _
    by_cases hk : p.1 = m
    · simp [Function.comp, hk]
    · simp [Function.comp, beq_eq_false_iff_ne.mpr hk]
  · have h1 : reg.register m a = reg ++ [(m, a)] := by
      unfold ActionRegistry.register; rw [if_neg hAny]
    have h1b : reg.register m b = reg ++ [(m, b)] := by
      unfold ActionRegistry.register; rw [if_neg hAny]
    have hAny2 : (List.any (reg ++ [(m, a)]) fun p => p.1 == m) = true := by
      simp
    have h2 : (reg.register m a).register m b
        = (reg ++ [(m, a)]).map fun p => if p.1 == m then (m, b) else p := by
      rw [h1]
      unfold ActionRegistry.register
      rw [if_pos hAny2]
    rw [h2, h1b, List.map_append]
    have h3 : List.map (fun p => if p.1 == m then (m, b) else p) reg = reg := by
      conv_rhs => rw [← List.map_id reg]
      apply List.map_congr_left
      intro p hp
      have hf : (p.1 == m) = false := by
        cases hbe : p.1 == m with
        | false => rfl
        | true =>
          exact absurd (List.any_eq_true.mpr ⟨p, hp, hbe⟩) hAny
      simp [hf]
    rw [h3]
    simp

/-- C8: after any registration sequence, lookup and export both reflect the
most recent registration of each name; the export carries exactly the
distinct registered names (each mapped to its description record, which
omits the handler by construction); and an immediate re-registration of a
name is literally the same registry as registering only the later action. -/
theorem C8_registry_last_registration_wins (rs : List (String × Action))
    (n : String) (reg : ActionRegistry) (m : String) (a b : Action) :
    (mkRegistry rs).get_action n = lastRegistered rs n
    ∧ List.lookup n (mkRegistry rs).get_action_descriptions
        = (lastRegistered rs n).map describeAction
    ∧ ((List.lookup n (mkRegistry rs).get_action_descriptions).isSome = true
        ↔ n ∈ rs.map Prod.fst)
    ∧ (reg.register m a).register m b = reg.register m b := by
  have hbase : (mkRegistry rs).get_action n = lastRegistered rs n := by
    rw [mkRegistry, foldl_register_lookup]
    rfl
  refine ⟨hbase, ?_, ?_, register_register reg m a b⟩
  · rw [export_lookup, hbase]
  · rw [export_lookup, hbase, ← lastRegistered_isSome rs n]
    cases lastRegistered rs n <;> simp


/-- The history stays within capacity across `execute_action`. -/
theorem execute_action_preserves_bound (ag : Agent) (n r : Val)
    (kw : List (String × Val))
    (hcap : ag.action_history.length ≤ ag.max_history) :
    ((execute_action ag n r kw).2).action_history.length ≤ ag.max_history := by
  by_cases h : ∃ a v, ag.action_registry.get_action_v n = some a ∧ a.func kw = .ok v
  · obtain ⟨a, v, hA, hF⟩ := h
    rw [execute_action_hist_ok ag n r kw a v hA hF]
    by_cases hc : ag.max_history < (ag.action_history ++ [mkHistEntry n kw r v]).length
    · rw [if_pos hc]
      simp only [List.length_drop, List.length_append, List.length_singleton] at hc ⊢
      omega
    · rw [if_neg hc]
      simp only [List.length_append, List.length_singleton] at hc ⊢
      omega
  · rw [execute_action_fail_unchanged ag n r kw h]
    exact hcap

/-- The agent after one loop iteration is either unchanged or the result of
one `execute_action`. -/
theorem run_step_agent (ag : Agent)
    (gen : String → String → Except PyErr String) (gs : Except PyErr Val) :
    (run_step ag gen gs).1 = ag
      ∨ ∃ n r kw, (run_step ag gen gs).1 = (execute_action ag n r kw).2 := by
  unfold run_step
  cases hAtt : step_attempt ag gen gs with
  | error e => exact Or.inl rfl
  | ok t =>
    obtain ⟨n, r, kw⟩ := t
    refine Or.inr ⟨n, r, kw, ?_⟩
    cases hs : (execute_action ag n r kw).1.success <;> simp [hs]

/-- One loop iteration keeps `max_history`. -/
theorem run_step_max (ag : Agent)
    (gen : String → String → Except PyErr String) (gs : Except PyErr Val) :
    ((run_step ag gen gs).1).max_history = ag.max_history := by
  rcases run_step_agent ag gen gs with h | ⟨n, r, kw, h⟩
  · rw [h]
  · rw [h, execute_action_max_history]

/-- One loop iteration keeps the history within the original capacity. -/
theorem run_step_bound (ag : Agent)
    (gen : String → String → Except PyErr String) (gs : Except PyErr Val)
    (hcap : ag.action_history.length ≤ ag.max_history) :
    ((run_step ag gen gs).1).action_history.length ≤ ag.max_history := by
  rcases run_step_agent ag gen gs with h | ⟨n, r, kw, h⟩
  · rw [h]; exact hcap
  · rw [h]; exact execute_action_preserves_bound ag n r kw hcap

/-- The whole loop keeps `max_history`. -/
theorem run_loop_aux_max (gen : Nat → String → String → Except PyErr String)
    (env : Nat → Except PyErr Val) :
    ∀ (k : Nat) (ag : Agent) (step : Nat),
      ((run_loop_aux gen env ag step k).1).max_history = ag.max_history := by
  intro k
  induction k with
  | zero => intro ag step; rfl
  | succ k ih =>
    intro ag step
    rcases hs : run_step ag (gen step) (env step) with ⟨ag2, r⟩
    have hstep : ag2.max_history = ag.max_history := by
      have h := run_step_max ag (gen step) (env step)
      rw [hs] at h
      exact h
    cases r with
    | ok =>
      rcases hrec : run_loop_aux gen env ag2 (step + 1) k with ⟨ag3, tr⟩
      have h3 := ih ag2 (step + 1)
      rw [hrec] at h3
      simp only [run_loop_aux, hs, hrec]
      exact h3.trans hstep
    | failed m =>
      simp only [run_loop_aux, hs]
      exact hstep
    | errored e =>
      simp only [run_loop_aux, hs]
      exact hstep

/-- The whole loop keeps the history within the original capacity. -/
theorem run_loop_aux_bound (gen : Nat → String → String → Except PyErr String)
    (env : Nat → Except PyErr Val) :
    ∀ (k : Nat) (ag : Agent) (step : Nat),
      ag.action_history.length ≤ ag.max_history →
      ((run_loop_aux gen env ag step k).1).action_history.length
        ≤ ag.max_history := by
  intro k
  induction k with
  | zero => intro ag step h; exact h
  | succ k ih =>
    intro ag step hcap
    rcases hs : run_step ag (gen step) (env step) with ⟨ag2, r⟩
    have hmax : ag2.max_history = ag.max_history := by
      have h := run_step_max ag (gen step) (env step)
      rw [hs] at h
      exact h
    have hcap2 : ag2.action_history.length ≤ ag2.max_history := by
      have h := run_step_bound ag (gen step) (env step) hcap
      rw [hs] at h
      rw [hmax]
      exact h
    cases r with
    | ok =>
      rcases hrec : run_loop_aux gen env ag2 (step + 1) k with ⟨ag3, tr⟩
      have h3 := ih ag2 (step + 1) hcap2
      rw [hrec] at h3
      simp only [run_loop_aux, hs, hrec]
      rw [← hmax]
      exact h3
    | failed m =>
      simp only [run_loop_aux, hs]
      rw [← hmax]
      exact hcap2
    | errored e =>
      simp only [run_loop_aux, hs]
      rw [← hmax]
      exact hcap2

/-- C9: with a positive capacity and a history within capacity, every
modelled operation leaves the history length within `max_history`:
`execute_action` with any outcome, `register_action`, and `run_loop` with
any collaborator behaviour.  (Prompt construction and `get_next_action`
are read-only in the model — they return no modified agent — so they
preserve the bound by construction.) -/
theorem C9_history_bound_invariant (ag : Agent)
    (hpos : 0 < ag.max_history)
    (hcap : ag.action_history.length ≤ ag.max_history) :
    (∀ n r kw,
      ((execute_action ag n r kw).2).action_history.length ≤ ag.max_history)
    ∧ (∀ name func description required_params example_,
        (register_action ag name func description
            required_params example_).action_history.length ≤ ag.max_history)
    ∧ (∀ gen env steps,
        ((run_loop ag gen env steps).1).action_history.length ≤ ag.max_history) :=
  ⟨fun n r kw => execute_action_preserves_bound ag n r kw hcap,
   fun _ _ _ _ _ => hcap,
   fun gen env steps => run_loop_aux_bound gen env steps ag 0 hcap⟩

/-- Witness for C9 at concrete operations on a concrete agent. -/
theorem C9_witness :
    ((execute_action agentPlain (.str "wave") (.str "") []).2).action_history.length
        ≤ agentPlain.max_history
    ∧ (register_action agentPlain "nop" (fun _ => .ok .null) "No-op"
        [] []).action_history.length ≤ agentPlain.max_history
    ∧ ((run_loop agentPlain (fun _ _ _ => .ok "\x7b\"action\": \"wave\"\x7d")
        (fun _ => .ok (.obj [])) 3).1).action_history.length
          ≤ agentPlain.max_history :=
  ⟨(C9_history_bound_invariant agentPlain (by decide) (by decide)).1
      (.str "wave") (.str "") [],
   (C9_history_bound_invariant agentPlain (by decide) (by decide)).2.1
      "nop" (fun _ => .ok .null) "No-op" [] [],
   (C9_history_bound_invariant agentPlain (by decide) (by decide)).2.2
      (fun _ _ _ => .ok "\x7b\"action\": \"wave\"\x7d") (fun _ => .ok (.obj [])) 3⟩


/-- Full characterization of the iteration trace of the loop: at most `k`
iterations run; every iteration before the last succeeded (the first
non-continuing iteration ends the loop); and the run completes (rather than
stopping on a failure or an error) exactly when all `k` iterations ran and
every one succeeded. -/
theorem run_loop_aux_spec (gen : Nat → String → String → Except PyErr String)
    (env : Nat → Except PyErr Val) :
    ∀ (k : Nat) (ag : Agent) (step : Nat),
      (run_loop_aux gen env ag step k).2.length ≤ k
      ∧ (∀ x ∈ (run_loop_aux gen env ag step k).2.dropLast, x = StepRes.ok)
      ∧ (loop_outcome (run_loop_aux gen env ag step k).2 = .completed
          ↔ ((run_loop_aux gen env ag step k).2.length = k
              ∧ ∀ x ∈ (run_loop_aux gen env ag step k).2, x = StepRes.ok)) := by
  intro k
  induction k with
  | zero =>
    intro ag step
    refine ⟨Nat.le_refl 0, ?_, ?_⟩
    · intro x hx
      simp [run_loop_aux] at hx
    · simp [run_loop_aux, loop_outcome]
  | succ k ih =>
    intro ag step
    rcases hs : run_step ag (gen step) (env step) with ⟨ag2, r⟩
    cases r with
    | ok =>
      rcases hrec : run_loop_aux gen env ag2 (step + 1) k with ⟨ag3, tr⟩
      have IH := ih ag2 (step + 1)
      rw [hrec] at IH
      obtain ⟨IH1, IH2, IH3⟩ := IH
      simp only [run_loop_aux, hs, hrec]
      refine ⟨by simpa using IH1, ?_, ?_⟩
      · cases tr with
        | nil => intro x hx; simp at hx
        | cons b l =>
          intro x hx
          simp only [List.dropLast] at hx
          rcases List.mem_cons.mp hx with h | h
          · exact h
          · exact IH2 x h
      · cases tr with
        | nil =>
          have hk0 : 0 = k := by
            have := IH3.mp rfl
            exact this.1
          subst hk0
          simp [loop_outcome]
        | cons b l =>
          have houtcome : loop_outcome (StepRes.ok :: b :: l) = loop_outcome (b :: l) := by
            unfold loop_outcome
            rw [List.getLast?_cons_cons]
          rw [houtcome, IH3]
          constructor
          · rintro ⟨h1, h2⟩
            refine ⟨by simp [h1], ?_⟩
            intro x hx
            rcases List.mem_cons.mp hx with h | h
            · rw [h]
            · exact h2 x h
          · rintro ⟨h1, h2⟩
            refine ⟨by simpa using h1, ?_⟩
            intro x hx
            exact h2 x (List.mem_cons_of_mem _ hx)
    | failed m =>
      simp only [run_loop_aux, hs]
      refine ⟨by simp, ?_, ?_⟩
      · intro x hx
        simp at hx
      · simp [loop_outcome]
    | errored e =>
      simp only [run_loop_aux, hs]
      refine ⟨by simp, ?_, ?_⟩
      · intro x hx
        simp at hx
      · simp [loop_outcome]

/-- C7: for every behaviour of the collaborators (including raising), the
run loop is total in the model — every exception is absorbed into the trace
— and: it executes at most `max_steps` iterations; the first iteration that
does not continue (a failure result or a caught exception) is the last one;
and the run ends `Completed` exactly when all `max_steps` iterations ran
and each succeeded (a trace ending in a failure ends `StoppedOnFailure`,
one ending in a caught exception ends `StoppedOnError`, by definition of
`loop_outcome`). -/
theorem C7_run_loop_bounded_total (ag : Agent)
    (gen : Nat → String → String → Except PyErr String)
    (env : Nat → Except PyErr Val) (max_steps : Nat) :
    (run_loop ag gen env max_steps).2.length ≤ max_steps
    ∧ (∀ x ∈ (run_loop ag gen env max_steps).2.dropLast, x = StepRes.ok)
    ∧ (loop_outcome (run_loop ag gen env max_steps).2 = .completed
        ↔ ((run_loop ag gen env max_steps).2.length = max_steps
            ∧ ∀ x ∈ (run_loop ag gen env max_steps).2, x = StepRes.ok)) :=
  run_loop_aux_spec gen env max_steps ag 0


/-- C10: when the state fetch, both prompt builds and the provider call of
the first iteration succeed and the response decodes to a JSON object with
no `action` key, the extraction step raises `KeyError("action")` before any
action is executed; the loop catches it, stops as an error stop after that
single iteration, and the agent — in particular its history — is unchanged. -/
theorem C10_missing_action_key_stops_loop (ag : Agent)
    (gen : Nat → String → String → Except PyErr String)
    (env : Nat → Except PyErr Val) (max_steps : Nat)
    (st : Val) (sp up txt : String) (fs : List (String × Val))
    (henv : env 0 = .ok st)
    (hsp : build_system_prompt ag = .ok sp)
    (hup : build_user_prompt ag st = .ok up)
    (hgen : gen 0 sp up = .ok txt)
    (hparse : parseJson txt = some (.obj fs))
    (hmiss : fs.lookup "action" = none)
    (hpos : 0 < max_steps) :
    run_loop ag gen env max_steps
        = (ag, [StepRes.errored (.keyError "action")])
    ∧ loop_outcome (run_loop ag gen env max_steps).2
        = .stoppedOnError (.keyError "action") := by
  have hget : get_next_action ag (gen 0) st = .ok (.obj fs) := by
    simp [get_next_action, hsp, hup, hgen, hparse, bind, Except.bind, pure, Except.pure]
  have hattempt : step_attempt ag (gen 0) (env 0) = .error (.keyError "action") := by
    simp [step_attempt, henv, hget, bind, Except.bind, dictPopReq, hmiss]
  have hstep : run_step ag (gen 0) (env 0)
      = (ag, .errored (.keyError "action")) := by
    simp [run_step, hattempt]
  cases max_steps with
  | zero => exact absurd hpos (by omega)
  | succ m =>
    have hrun : run_loop ag gen env (m + 1)
        = (ag, [StepRes.errored (.keyError "action")]) := by
      simp only [run_loop, run_loop_aux, hstep]
    refine ⟨hrun, ?_⟩
    rw [hrun]
    rfl

/-- Witness for C10: a concrete response object `{"reasoning": "hi"}` with
no `action` key stops a one-step run as an error stop with the agent
unchanged. -/
theorem C10_witness :
    run_loop agentPlain (fun _ _ _ => .ok "\x7b\"reasoning\": \"hi\"\x7d")
        (fun _ => .ok (.obj [])) 1
        = (agentPlain, [StepRes.errored (.keyError "action")])
    ∧ loop_outcome (run_loop agentPlain
        (fun _ _ _ => .ok "\x7b\"reasoning\": \"hi\"\x7d")
        (fun _ => .ok (.obj [])) 1).2
        = .stoppedOnError (.keyError "action") :=
  C10_missing_action_key_stops_loop agentPlain
    (fun _ _ _ => .ok "\x7b\"reasoning\": \"hi\"\x7d") (fun _ => .ok (.obj [])) 1
    (.obj []) "SYS" "USR" "\x7b\"reasoning\": \"hi\"\x7d"
    [("reasoning", .str "hi")] rfl rfl rfl rfl rfl rfl (by decide)

end GAME
